import Mathlib

/-!
Verification development for the typed-expression layer of miniwdl
(`src/WDL/Expr.py`): a shallow embedding of the expression-node hierarchy
(Boolean, Int, Float, String, Array, IfThenElse, Apply, Ident), their
construction-time typechecking, and their evaluation against a runtime
environment, together with proofs about the spec's claims.

The type model (`WDL/Type.py`), value model (`WDL/Value.py`) and error
taxonomy (`WDL/Error.py`) are external collaborators not present under
`src/`; their boundary behaviour is modelled from the spec where marked.
-/

set_option maxHeartbeats 1000000

namespace WDL

/-- Source file line/column attached to each AST node (`SourcePosition` in
Expr.py); used only for diagnostics. -/
structure SourcePosition where
  line : Nat
  column : Nat
  end_line : Nat
  end_column : Nat
  deriving DecidableEq, Repr, Inhabited

/-- A fixed position for concrete instances. -/
def pos0 : SourcePosition := ⟨1, 1, 1, 2⟩

/-- Modelled from the spec: `WDL/Type.py` is not under `src/`. Per spec §2/§6
the type model is a closed set of type tags Boolean, Int, Float, String,
Array-of-T and a distinguished "any array" type, with an equality relation
(modelled structurally). -/
inductive Ty where
  | boolean
  | int
  | float
  | string
  | array (item : Ty)
  | anyArray
  deriving DecidableEq, Repr

/-- Modelled from the spec: `WDL/Type.py` is not under `src/`. Expr.py's
`Array.typecheck` tests `isinstance(expected, T.AnyArray)`; per spec §4.2 an
empty array must "satisfy any expected concrete array type", so the
instance test holds for every concrete array type as well as for the
"any array" type itself. -/
def Ty.isInstanceAnyArray : Ty → Bool
  | .array _ => true
  | .anyArray => true
  | _ => false

/-- Modelled from the spec: `WDL/Value.py` is not under `src/`. Per spec §2/§6
runtime values are tagged by type: primitives wrapping their payload, and
array values carrying the array's type tag together with the element values
(`V.Array(type, values)` as used by `Array.eval`). Python floats are modelled
as rationals; no float arithmetic occurs in this core. -/
inductive Val where
  | boolean (value : Bool)
  | int (value : Int)
  | float (value : Rat)
  | string (value : String)
  | array (type : Ty) (values : List Val)
  deriving Repr

/-- Modelled from the spec: the runtime type tag of a value (spec §3: values
are "tagged by type"; an array value carries the type it was built with). -/
def Val.typeOf : Val → Ty
  | .boolean _ => .boolean
  | .int _ => .int
  | .float _ => .float
  | .string _ => .string
  | .array ty _ => ty

/-- Errors signaled by this core (spec §7): the three structured kinds from
`WDL/Error.py` (not under `src/`, modelled from the spec), plus the two
dynamic failures that evaluation can surface from Python built-ins:
a `UnicodeDecodeError` from `String.eval`'s escape decoding, and the
dynamic failure of the value model's `expect` (spec §6: "failing dynamically
if incompatible"). Node identity in a diagnostic is its source position. -/
inductive Err where
  | staticTypeMismatch (pos : SourcePosition) (expected : Ty) (actual : Ty) (message : Option String)
  | noSuchFunction (pos : SourcePosition) (name : String)
  | unknownIdentifier (pos : SourcePosition) (id : String)
  | unicodeDecodeError
  | runtimeTypeMismatch (expected : Ty) (actual : Ty)
  deriving DecidableEq, Repr

/-- Modelled from the spec: `V.Base.coerce(targetType)` (spec §6/glossary):
"converting a runtime value to a different but compatible type (e.g., Int
value to Float value) as required by its statically unified context type".
The one declared coercion is Int value to Float value; otherwise the value
is returned unchanged. The target is optional because `Array.eval` passes
the possibly-absent `item_type`. -/
def Val.coerce (v : Val) (target : Option Ty) : Val :=
  match v, target with
  | .int n, some .float => .float (n : Rat)
  | _, _ => v

/-- Modelled from the spec: `V.Base.expect(targetType)` (spec §6): force-unwrap
a value as a given type, failing dynamically if incompatible. -/
def Val.expect (v : Val) (t : Ty) : Except Err Val :=
  if v.typeOf = t then .ok v else .error (.runtimeTypeMismatch t v.typeOf)

/-- Modelled from the spec: the `.value` payload of a `V.Boolean`, as read by
`IfThenElse.eval`. Only reached after `expect(T.Boolean())` has succeeded,
so the non-boolean branches are unreachable there. -/
def Val.boolValue : Val → Bool
  | .boolean b => b
  | _ => false

mutual
/-- Well-tagged runtime values: an array value's type tag is an array type
(concrete or "any array"), recursively. Every value the value model's own
constructors can produce is well-tagged; used to state the registry
contract and environment compatibility. -/
def Val.tagOK : Val → Bool
  | .array ty values => ty.isInstanceAnyArray && Val.tagOKList values
  | _ => true

/-- `Val.tagOK` on each element of a list. -/
def Val.tagOKList : List Val → Bool
  | [] => true
  | v :: rest => Val.tagOK v && Val.tagOKList rest
end

/-! ### String-literal escape decoding

`String.eval` computes `str.encode(self._literal[1:-1]).decode('unicode_escape')`:
strip the first and last character, encode the remaining text to UTF-8 bytes,
then decode those bytes with Python's `unicode_escape` codec (each non-escape
byte becomes the Latin-1 character of its value; backslash sequences are
decoded). Bytes are modelled as `Nat` values below 256. -/

/-- UTF-8 encoding of one character (what Python's `str.encode()` produces
per code point). -/
def utf8EncodeChar (c : Char) : List Nat :=
  let v := c.toNat
  if v < 0x80 then [v]
  else if v < 0x800 then
    [0xC0 ||| (v >>> 6), 0x80 ||| (v &&& 0x3F)]
  else if v < 0x10000 then
    [0xE0 ||| (v >>> 12), 0x80 ||| ((v >>> 6) &&& 0x3F), 0x80 ||| (v &&& 0x3F)]
  else
    [0xF0 ||| (v >>> 18), 0x80 ||| ((v >>> 12) &&& 0x3F),
     0x80 ||| ((v >>> 6) &&& 0x3F), 0x80 ||| (v &&& 0x3F)]

/-- UTF-8 encoding of a string (`str.encode()` with the default codec). -/
def utf8Encode (s : String) : List Nat :=
  (s.data.map utf8EncodeChar).flatten

/-- In `unicode_escape`, a byte outside an escape sequence decodes as the
Latin-1 character of its value. -/
def latin1Char (b : Nat) : Char := Char.ofNat b

/-- Value of an ASCII hex-digit byte, if it is one. -/
def hexDigit (b : Nat) : Option Nat :=
  if 48 ≤ b ∧ b ≤ 57 then some (b - 48)
  else if 97 ≤ b ∧ b ≤ 102 then some (b - 87)
  else if 65 ≤ b ∧ b ≤ 70 then some (b - 55)
  else none

/-- Whether a byte is an ASCII octal digit. -/
def isOctDigit (b : Nat) : Bool := 48 ≤ b && b ≤ 55

/-- Consume exactly `k` hex-digit bytes, accumulating their value; `none`
mirrors Python's "truncated escape" `UnicodeDecodeError`. -/
def takeHex : Nat → Nat → List Nat → Option (Nat × List Nat)
  | 0, acc, bs => some (acc, bs)
  | k + 1, acc, bs =>
    match bs with
    | [] => none
    | b :: rest =>
      match hexDigit b with
      | some d => takeHex k (acc * 16 + d) rest
      | none => none

/-- A decoded code point as a `Char`. Python's `chr` rejects values above
0x10FFFF; it does admit lone surrogates in a `str`, which Lean's `Char`
(valid scalar values only) cannot represent — those are treated as decode
failures here, and no claim depends on them. -/
def mkEscChar (n : Nat) : Option Char :=
  if n < 0xD800 ∨ (0xDFFF < n ∧ n < 0x110000) then some (Char.ofNat n) else none

/-- Decoding of one backslash escape sequence, CPython style, given the byte
after the backslash, the remaining bytes, and the continuation `k` decoding
whatever the escape does not consume: `\` + newline is a line continuation;
the named single-character escapes; one- to three-digit octal escapes;
`\xhh`, `\uhhhh`, `\Uhhhhhhhh` (truncated forms fail); an unrecognized
escape keeps the backslash and the following byte; `\N` named-character
escapes (resolved by Python via the Unicode database) are not modelled. -/
def escapeStep (k : List Nat → Option (List Char)) (e : Nat) (rest : List Nat) :
    Option (List Char) :=
  if e = 10 then k rest
  else if e = 92 then (k rest).map (fun cs => '\\' :: cs)
  else if e = 39 then (k rest).map (fun cs => '\'' :: cs)
  else if e = 34 then (k rest).map (fun cs => '"' :: cs)
  else if e = 98 then (k rest).map (fun cs => Char.ofNat 8 :: cs)
  else if e = 102 then (k rest).map (fun cs => Char.ofNat 12 :: cs)
  else if e = 116 then (k rest).map (fun cs => '\t' :: cs)
  else if e = 110 then (k rest).map (fun cs => '\n' :: cs)
  else if e = 114 then (k rest).map (fun cs => Char.ofNat 13 :: cs)
  else if e = 118 then (k rest).map (fun cs => Char.ofNat 11 :: cs)
  else if e = 97 then (k rest).map (fun cs => Char.ofNat 7 :: cs)
  else if isOctDigit e then
    match rest with
    | d2 :: d3 :: rest2 =>
      if isOctDigit d2 then
        if isOctDigit d3 then
          (k rest2).map
            (fun cs => Char.ofNat ((e - 48) * 64 + (d2 - 48) * 8 + (d3 - 48)) :: cs)
        else
          (k (d3 :: rest2)).map
            (fun cs => Char.ofNat ((e - 48) * 8 + (d2 - 48)) :: cs)
      else
        (k (d2 :: d3 :: rest2)).map (fun cs => Char.ofNat (e - 48) :: cs)
    | [d2] =>
      if isOctDigit d2 then
        (k []).map (fun cs => Char.ofNat ((e - 48) * 8 + (d2 - 48)) :: cs)
      else
        (k [d2]).map (fun cs => Char.ofNat (e - 48) :: cs)
    | [] => some [Char.ofNat (e - 48)]
  else if e = 120 then
    match takeHex 2 0 rest with
    | some (v, rest2) =>
      match mkEscChar v with
      | some c => (k rest2).map (fun cs => c :: cs)
      | none => none
    | none => none
  else if e = 117 then
    match takeHex 4 0 rest with
    | some (v, rest2) =>
      match mkEscChar v with
      | some c => (k rest2).map (fun cs => c :: cs)
      | none => none
    | none => none
  else if e = 85 then
    match takeHex 8 0 rest with
    | some (v, rest2) =>
      match mkEscChar v with
      | some c => (k rest2).map (fun cs => c :: cs)
      | none => none
    | none => none
  else if e = 78 then none
  else (k rest).map (fun cs => '\\' :: latin1Char e :: cs)

/-- Python's `unicode_escape` byte decoder. The fuel argument is the length
of the byte list (each step consumes at least one byte and one unit of
fuel). A non-escape byte decodes as Latin-1; a backslash dispatches to
`escapeStep`; a trailing lone backslash fails. -/
def unicodeEscapeAux : Nat → List Nat → Option (List Char)
  | _, [] => some []
  | 0, _ :: _ => none
  | fuel + 1, b :: bs =>
    if b = 92 then
      match bs with
      | [] => none
      | e :: rest => escapeStep (unicodeEscapeAux fuel) e rest
    else (unicodeEscapeAux fuel bs).map (fun cs => latin1Char b :: cs)

/-- `bytes.decode('unicode_escape')`: `none` mirrors a `UnicodeDecodeError`. -/
def unicodeEscapeDecode (bs : List Nat) : Option String :=
  (unicodeEscapeAux bs.length bs).map List.asString

/-- The computation of `String.eval` on the stored literal: strip exactly the
first and last character (`self._literal[1:-1]`), UTF-8 encode, decode with
`unicode_escape`. -/
def stringEvalDecode (literal : String) : Option String :=
  unicodeEscapeDecode (utf8Encode ((literal.drop 1).dropRight 1))

/-! ### Expression nodes -/

/-- The expression-node hierarchy of Expr.py: one variant per class
(`Boolean`, `Int`, `Float`, `String`, `Array`, `IfThenElse`, `Apply`,
`Ident`), each carrying its `pos` and its static `type` field (set once at
construction) plus the variant-specific payload. An `Apply` node stores the
name under which its function implementation was resolved in the (immutable)
registry; `Ident` stores the namespace parts and the trailing identifier. -/
inductive Expr where
  | boolean (pos : SourcePosition) (type : Ty) (literal : Bool)
  | int (pos : SourcePosition) (type : Ty) (literal : Int)
  | float (pos : SourcePosition) (type : Ty) (literal : Rat)
  | string (pos : SourcePosition) (type : Ty) (literal : String)
  | array (pos : SourcePosition) (type : Ty) (item_type : Option Ty) (items : List Expr)
  | ifThenElse (pos : SourcePosition) (type : Ty) (condition consequent alternative : Expr)
  | apply (pos : SourcePosition) (type : Ty) (function : String) (arguments : List Expr)
  | ident (pos : SourcePosition) (type : Ty) (nspace : List String) (identifier : String)
  deriving Repr

/-- The `pos` field shared by every node (`Base.pos`). -/
def Expr.pos : Expr → SourcePosition
  | .boolean p _ _ => p
  | .int p _ _ => p
  | .float p _ _ => p
  | .string p _ _ => p
  | .array p _ _ _ => p
  | .ifThenElse p _ _ _ _ => p
  | .apply p _ _ _ => p
  | .ident p _ _ _ => p

/-- The static `type` field shared by every node (`Base.type`). -/
def Expr.type : Expr → Ty
  | .boolean _ t _ => t
  | .int _ t _ => t
  | .float _ t _ => t
  | .string _ t _ => t
  | .array _ t _ _ => t
  | .ifThenElse _ t _ _ _ => t
  | .apply _ t _ _ => t
  | .ident _ t _ _ => t

/-- Whether a node is an `Int` literal (the class test performed implicitly
by Python's method dispatch on `Int.typecheck`). -/
def Expr.isIntLiteral : Expr → Bool
  | .int _ _ _ => true
  | _ => false

/-- Static environment: identifier bindings to static types (`StaticEnv`);
`__getitem__` raises `KeyError` on absence, modelled by `List.lookup`. -/
def StaticEnv := List (String × Ty)

/-- Runtime environment: identifier bindings to values (`Env`). -/
def Env := List (String × Val)

/-! ### Typechecking (`Base.typecheck` and its two overrides) -/

/-- `Base.typecheck`: if `expected` is not the no-constraint sentinel (`None`)
and differs from the node's own static type, signal `StaticTypeMismatch`
naming the node, the expected type and the actual type; otherwise return the
node itself unchanged. -/
def baseTypecheck (e : Expr) (expected : Option Ty) : Except Err Expr :=
  match expected with
  | some exp =>
    if e.type ≠ exp then .error (.staticTypeMismatch e.pos exp e.type none)
    else .ok e
  | none => .ok e

/-- Virtual dispatch of `typecheck`: `Int.typecheck` additionally accepts an
expected `Float` (returning the node itself, unconverted); `Array.typecheck`
short-circuits for an empty array when the expected type is an array type
(`isinstance(expected, T.AnyArray)`), before falling through to the default;
every other variant uses `Base.typecheck` unmodified. -/
def Expr.typecheck (e : Expr) (expected : Option Ty) : Except Err Expr :=
  match e with
  | .int _ _ _ =>
    match expected with
    | some .float => .ok e
    | _ => baseTypecheck e expected
  | .array _ _ _ items =>
    match expected with
    | some exp =>
      if items.length = 0 && exp.isInstanceAnyArray then .ok e
      else baseTypecheck e expected
    | none => baseTypecheck e expected
  | _ => baseTypecheck e expected

/-- Whether `typecheck` against the given expected type raises. -/
def Expr.typecheckFails (expected : Ty) (e : Expr) : Bool :=
  match e.typecheck (some expected) with
  | .ok _ => false
  | .error _ => true

/-! ### Construction (the `__init__` of each class)

Each Python constructor performs its static typing inline and either
produces a fully typed node or raises; modelled as functions into
`Except Err Expr`. The literal constructors never fail. -/

/-- `Boolean.__init__`: type is unconditionally `T.Boolean()`. -/
def Boolean.make (pos : SourcePosition) (literal : Bool) : Expr :=
  .boolean pos .boolean literal

/-- `Int.__init__`: type is unconditionally `T.Int()`. -/
def Int.make (pos : SourcePosition) (literal : Int) : Expr :=
  .int pos .int literal

/-- `Float.__init__`: type is unconditionally `T.Float()`. -/
def Float.make (pos : SourcePosition) (literal : Rat) : Expr :=
  .float pos .float literal

/-- `String.__init__`: type is unconditionally `T.String()`; the stored
literal still includes its surrounding quote characters. -/
def String.make (pos : SourcePosition) (literal : String) : Expr :=
  .string pos .string literal

/-- The per-item loop of `Array.__init__`: each item's `typecheck` against
the candidate item type; a `StaticTypeMismatch` from an item is caught and
re-raised (`from None`, discarding the original) as a new mismatch naming
the array node, the candidate item type, the offending item's actual type
and the fixed note. -/
def checkArrayItems (pos : SourcePosition) (item_type : Ty) : List Expr → Except Err Unit
  | [] => .ok ()
  | item :: rest =>
    match item.typecheck (some item_type) with
    | .ok _ => checkArrayItems pos item_type rest
    | .error (.staticTypeMismatch _ _ _ _) =>
      .error (.staticTypeMismatch pos item_type item.type
        (some "inconsistent types within array"))
    | .error err => .error err

/-- The candidate item type computed by `Array.__init__` for a non-empty
item list: the first item's type, promoted from `Int` to `Float` when any
item's type is `Float` (the widening loop). -/
def arrayItemType (first : Expr) (items : List Expr) : Ty :=
  if first.type = .int ∧ items.any (fun item => item.type == .float)
  then Ty.float else first.type

/-- `Array.__init__`: an empty sequence yields type `T.AnyArray()` with no
item type; otherwise the candidate item type is computed (`arrayItemType`),
every item is checked against it, and the node's type is
`T.Array(candidate)`. -/
def Array.make (pos : SourcePosition) (items : List Expr) : Except Err Expr :=
  match items with
  | [] => .ok (.array pos .anyArray none [])
  | first :: _ =>
    let item_type := arrayItemType first items
    match checkArrayItems pos item_type items with
    | .error err => .error err
    | .ok _ => .ok (.array pos (.array item_type) (some item_type) items)

/-- `IfThenElse.__init__` from the three sub-expressions (the `assert
len(items) == 3` structural precondition is absorbed by the arity here):
the condition's type must equal `T.Boolean()` (else a mismatch noting
"in if condition"), the consequent's and alternative's types must be equal
(else a mismatch with the branch note), and the node's type is the
consequent's type. -/
def IfThenElse.make (pos : SourcePosition) (condition consequent alternative : Expr) :
    Except Err Expr :=
  if condition.type ≠ .boolean then
    .error (.staticTypeMismatch pos .boolean condition.type (some "in if condition"))
  else if consequent.type ≠ alternative.type then
    .error (.staticTypeMismatch pos consequent.type alternative.type
      (some "if consequent & alternative must have the same type"))
  else .ok (.ifThenElse pos consequent.type condition consequent alternative)

/-- A function implementation (`_Function`): its `typecheck` sees the
call site being constructed (source position and argument expressions;
the node's type is not yet set at that point) and produces the return type
or an error; its `call` receives the finished `Apply` node (holding the
unevaluated argument sub-expressions) and the environment. -/
structure FuncImpl where
  typecheck : SourcePosition → List Expr → Except Err Ty
  call : Expr → Env → Except Err Val

/-- The function registry (`_stdlib`): a name-to-implementation table,
populated by the surrounding system and immutable thereafter. Because it
never changes between construction and evaluation, an `Apply` node storing
the name it was resolved under is equivalent to storing the resolved
implementation. -/
def Registry := List (String × FuncImpl)

/-- `Apply.__init__`: look the name up in the registry (`KeyError` becomes
`NoSuchFunction`); on success the implementation's `typecheck` against this
call site produces the node's type, or its error propagates unmodified. -/
def Apply.make (reg : Registry) (pos : SourcePosition) (function : String)
    (arguments : List Expr) : Except Err Expr :=
  match List.lookup function reg with
  | none => .error (.noSuchFunction pos function)
  | some f =>
    match f.typecheck pos arguments with
    | .error err => .error err
    | .ok return_type => .ok (.apply pos return_type function arguments)

/-- `Ident.__init__`: the trailing part is the identifier, the rest the
namespace (asserted empty in the source — a structural precondition; the
claims are stated for the supported single-part case). The identifier is
looked up in the static environment; `KeyError` becomes `UnknownIdentifier`,
otherwise the node's type is whatever the static environment reports. -/
def Ident.make (pos : SourcePosition) (parts : List String) (static_env : StaticEnv) :
    Except Err Expr :=
  let identifier := parts.getLast!
  match List.lookup identifier static_env with
  | some my_type => .ok (.ident pos my_type parts.dropLast identifier)
  | none => .error (.unknownIdentifier pos identifier)

/-! ### Evaluation (`eval` on each class) -/

mutual
/-- `eval` of each node against a runtime environment (and the immutable
registry, through which an `Apply` node reaches its resolved
implementation). Literals wrap their payload; `String.eval` strips the
quotes and decodes escapes (a `UnicodeDecodeError` on a malformed escape);
`Array.eval` evaluates every item and coerces each result to the unified
item type, collecting into an array value tagged with the node's type;
`IfThenElse.eval` evaluates the condition, force-unwraps it as Boolean, and
evaluates only the branch selected by its `value`; `Apply.eval` delegates
to the implementation with the node and the environment; `Ident.eval` looks
the identifier up in the environment (`KeyError` becomes
`UnknownIdentifier`). -/
def Expr.eval (reg : Registry) : Expr → Env → Except Err Val
  | .boolean _ _ b, _ => .ok (.boolean b)
  | .int _ _ n, _ => .ok (.int n)
  | .float _ _ x, _ => .ok (.float x)
  | .string _ _ lit, _ =>
    match stringEvalDecode lit with
    | some s => .ok (.string s)
    | none => .error .unicodeDecodeError
  | .array _ ty item_type items, env =>
    match Expr.evalItems reg item_type items env with
    | .ok vals => .ok (.array ty vals)
    | .error err => .error err
  | .ifThenElse _ _ condition consequent alternative, env =>
    match Expr.eval reg condition env with
    | .error err => .error err
    | .ok cv =>
      match cv.expect .boolean with
      | .error err => .error err
      | .ok cv2 =>
        if cv2.boolValue = false then Expr.eval reg alternative env
        else Expr.eval reg consequent env
  | .apply pos ty function args, env =>
    match List.lookup function reg with
    | some f => f.call (.apply pos ty function args) env
    | none => .error (.noSuchFunction pos function)
  | .ident pos _ _ identifier, env =>
    match List.lookup identifier env with
    | some v => .ok v
    | none => .error (.unknownIdentifier pos identifier)

/-- The list comprehension of `Array.eval`:
`[item.eval(env).coerce(self.item_type) for item in self.items]` —
items are evaluated left to right, each result coerced to the item type;
the first failure aborts. -/
def Expr.evalItems (reg : Registry) (item_type : Option Ty) : List Expr → Env → Except Err (List Val)
  | [], _ => .ok []
  | item :: rest, env =>
    match Expr.eval reg item env with
    | .error err => .error err
    | .ok v =>
      let cv := v.coerce item_type
      match Expr.evalItems reg item_type rest env with
      | .error err => .error err
      | .ok vs => .ok (cv :: vs)
end

/-! ### Well-formed (constructor-produced) nodes

The inductive `Expr` admits arbitrary trees; the Python classes only ever
produce nodes through their constructors, bottom-up. `Expr.WF` characterizes
exactly the nodes a successful construction can produce: each node's stored
type and payload are what its `__init__` computes from its (themselves
well-formed) children. For `Ident`, any recorded type is reachable (a static
environment binding the identifier to that type produces it), so only the
structural precondition (empty namespace) remains. -/

mutual
/-- A node is the result of a successful construction from well-formed
children (given the registry in force when `Apply` nodes were built). -/
def Expr.WF (reg : Registry) : Expr → Bool
  | .boolean _ ty _ => ty == .boolean
  | .int _ ty _ => ty == .int
  | .float _ ty _ => ty == .float
  | .string _ ty _ => ty == .string
  | .array pos ty item_type items =>
    Expr.WFList reg items &&
    (match items with
     | [] => ty == .anyArray && item_type == none
     | first :: _ =>
       let cand := arrayItemType first items
       item_type == some cand && ty == .array cand &&
       (match checkArrayItems pos cand items with
        | .ok _ => true
        | .error _ => false))
  | .ifThenElse _ ty c a b =>
    Expr.WF reg c && Expr.WF reg a && Expr.WF reg b &&
    c.type == .boolean && a.type == b.type && ty == a.type
  | .apply pos ty function args =>
    Expr.WFList reg args &&
    (match List.lookup function reg with
     | some fimpl =>
       (match fimpl.typecheck pos args with
        | .ok rt => ty == rt
        | .error _ => false)
     | none => false)
  | .ident _ _ ns _ => ns == []

/-- `Expr.WF` on every element of a list. -/
def Expr.WFList (reg : Registry) : List Expr → Bool
  | [] => true
  | e :: rest => Expr.WF reg e && Expr.WFList reg rest
end

mutual
/-- Every string literal a node's own evaluation will decode is free of
malformed escape sequences (so `String.eval` raises no `UnicodeDecodeError`).
Argument sub-expressions of an `Apply` are evaluated by its implementation,
whose behaviour is constrained separately by `RegistryOK`. -/
def Expr.stringsOK : Expr → Bool
  | .string _ _ lit => (stringEvalDecode lit).isSome
  | .array _ _ _ items => Expr.stringsOKList items
  | .ifThenElse _ _ c a b => Expr.stringsOK c && Expr.stringsOK a && Expr.stringsOK b
  | _ => true

/-- `Expr.stringsOK` on every element of a list. -/
def Expr.stringsOKList : List Expr → Bool
  | [] => true
  | e :: rest => Expr.stringsOK e && Expr.stringsOKList rest
end

mutual
/-- The runtime environment is type-compatible with the node: every
identifier the node's own evaluation can look up is either absent (a
name-lookup failure) or bound to a well-tagged value of the statically
recorded type. -/
def Expr.envOK (env : Env) : Expr → Bool
  | .ident _ ty _ id =>
    (match List.lookup id env with
     | some v => v.typeOf == ty && v.tagOK
     | none => true)
  | .array _ _ _ items => Expr.envOKList env items
  | .ifThenElse _ _ c a b => Expr.envOK env c && Expr.envOK env a && Expr.envOK env b
  | _ => true

/-- `Expr.envOK` on every element of a list. -/
def Expr.envOKList (env : Env) : List Expr → Bool
  | [] => true
  | e :: rest => Expr.envOK env e && Expr.envOKList env rest
end

/-- The `_Function` interface contract (docstring in Expr.py: `typecheck`
shall "raise an error or return the type of the value that the function
will return when applied to these arguments", and evaluation "cannot fail
with a type error (only with name-lookup failure)" per the spec): whenever
an implementation's `typecheck` accepted a call site with return type `ty`,
its `call` on that call site returns a well-tagged value of type `ty` or a
name-lookup failure. -/
def RegistryOK (reg : Registry) : Prop :=
  ∀ name fimpl, List.lookup name reg = some fimpl →
    ∀ pos args ty env, fimpl.typecheck pos args = .ok ty →
      (∃ v, fimpl.call (.apply pos ty name args) env = .ok v ∧
        v.typeOf = ty ∧ v.tagOK = true) ∨
      (∃ p s, fimpl.call (.apply pos ty name args) env = .error (.unknownIdentifier p s))

/-! ### Induction over expression trees -/

/-- Structural induction principle for `Expr` giving membership hypotheses
for the nested lists of sub-expressions. -/
def Expr.inductionOn {motive : Expr → Prop}
    (hboolean : ∀ p t l, motive (.boolean p t l))
    (hint : ∀ p t l, motive (.int p t l))
    (hfloat : ∀ p t l, motive (.float p t l))
    (hstring : ∀ p t l, motive (.string p t l))
    (harray : ∀ p t it items, (∀ i, i ∈ items → motive i) → motive (.array p t it items))
    (hifThenElse : ∀ p t c a b, motive c → motive a → motive b →
      motive (.ifThenElse p t c a b))
    (happly : ∀ p t f args, (∀ a, a ∈ args → motive a) → motive (.apply p t f args))
    (hident : ∀ p t ns s, motive (.ident p t ns s)) :
    ∀ e, motive e := fun e =>
  match e with
  | .boolean p t l => hboolean p t l
  | .int p t l => hint p t l
  | .float p t l => hfloat p t l
  | .string p t l => hstring p t l
  | .array p t it items => harray p t it items (fun i hi =>
      Expr.inductionOn hboolean hint hfloat hstring harray hifThenElse happly hident i)
  | .ifThenElse p t c a b => hifThenElse p t c a b
      (Expr.inductionOn hboolean hint hfloat hstring harray hifThenElse happly hident c)
      (Expr.inductionOn hboolean hint hfloat hstring harray hifThenElse happly hident a)
      (Expr.inductionOn hboolean hint hfloat hstring harray hifThenElse happly hident b)
  | .apply p t f args => happly p t f args (fun a ha =>
      Expr.inductionOn hboolean hint hfloat hstring harray hifThenElse happly hident a)
  | .ident p t ns s => hident p t ns s
termination_by e => sizeOf e
decreasing_by
  all_goals simp
  all_goals first
  | omega
  | exact Nat.lt_of_lt_of_le (List.sizeOf_lt_of_mem hi) (by omega)
  | exact Nat.lt_of_lt_of_le (List.sizeOf_lt_of_mem ha) (by omega)

/-! ### Supporting lemmas -/

/-- Membership form of `Expr.WFList`. -/
theorem Expr.WFList_mem {reg : Registry} : ∀ {items : List Expr} {i : Expr},
    i ∈ items → Expr.WFList reg items = true → Expr.WF reg i = true := by
  intro items i hi
  induction hi with
  | head rest =>
    intro h
    simp only [Expr.WFList, Bool.and_eq_true] at h
    exact h.1
  | tail b hmem ih =>
    intro h
    simp only [Expr.WFList, Bool.and_eq_true] at h
    exact ih h.2

/-- Membership form of `Expr.stringsOKList`. -/
theorem Expr.stringsOKList_mem : ∀ {items : List Expr} {i : Expr},
    i ∈ items → Expr.stringsOKList items = true → Expr.stringsOK i = true := by
  intro items i hi
  induction hi with
  | head rest =>
    intro h
    simp only [Expr.stringsOKList, Bool.and_eq_true] at h
    exact h.1
  | tail b hmem ih =>
    intro h
    simp only [Expr.stringsOKList, Bool.and_eq_true] at h
    exact ih h.2

/-- Membership form of `Expr.envOKList`. -/
theorem Expr.envOKList_mem {env : Env} : ∀ {items : List Expr} {i : Expr},
    i ∈ items → Expr.envOKList env items = true → Expr.envOK env i = true := by
  intro items i hi
  induction hi with
  | head rest =>
    intro h
    simp only [Expr.envOKList, Bool.and_eq_true] at h
    exact h.1
  | tail b hmem ih =>
    intro h
    simp only [Expr.envOKList, Bool.and_eq_true] at h
    exact ih h.2

/-- Coercion preserves well-taggedness (the only conversion builds a float
value; otherwise the value is unchanged). -/
theorem Val.coerce_tagOK {v : Val} {target : Option Ty} (h : v.tagOK = true) :
    (v.coerce target).tagOK = true := by
  cases v <;> cases target <;> try exact h
  rename_i n ty
  cases ty <;> exact h

/-- `Val.tagOKList` from a membership predicate. -/
theorem Val.tagOKList_of_forall : ∀ {vs : List Val},
    (∀ v ∈ vs, Val.tagOK v = true) → Val.tagOKList vs = true := by
  intro vs
  induction vs with
  | nil => intro _; rfl
  | cons v rest ih =>
    intro h
    simp only [Val.tagOKList, Bool.and_eq_true]
    exact ⟨h v (List.mem_cons_self v rest), ih fun w hw => h w (List.mem_cons_of_mem _ hw)⟩

/-- Behaviour of the `Array.eval` item loop when every item individually
evaluates to a well-tagged value of its own static type or fails with a
name-lookup error: the loop yields the coerced values in order, or the first
name-lookup failure. -/
theorem evalItemsSpec (reg : Registry) (it : Option Ty) (env : Env) :
    ∀ l : List Expr,
    (∀ i ∈ l, (∃ v, i.eval reg env = .ok v ∧ v.typeOf = i.type ∧ v.tagOK = true) ∨
      (∃ p s, i.eval reg env = .error (.unknownIdentifier p s))) →
    (∃ vs, Expr.evalItems reg it l env = .ok vs ∧
      List.Forall₂ (fun i v => ∃ w, i.eval reg env = .ok w ∧ w.typeOf = i.type ∧
        w.tagOK = true ∧ v = w.coerce it) l vs) ∨
    (∃ p s, Expr.evalItems reg it l env = .error (.unknownIdentifier p s)) := by
  intro l
  induction l with
  | nil => intro _; left; exact ⟨[], rfl, List.Forall₂.nil⟩
  | cons i rest ihr =>
    intro h
    rcases h i (List.mem_cons_self i rest) with ⟨v, hv, hvt, hvtag⟩ | ⟨p, s, herr⟩
    · rcases ihr (fun j hj => h j (List.mem_cons_of_mem _ hj)) with
        ⟨vs, hvs, hfa⟩ | ⟨p, s, herr⟩
      · left
        refine ⟨v.coerce it :: vs, ?_, List.Forall₂.cons ⟨v, hv, hvt, hvtag, rfl⟩ hfa⟩
        simp [Expr.evalItems, hv, hvs]
      · right
        exact ⟨p, s, by simp [Expr.evalItems, hv, herr]⟩
    · right
      exact ⟨p, s, by simp [Expr.evalItems, herr]⟩

/-- The values produced by the `Array.eval` item loop are well-tagged. -/
theorem tagOKList_of_forall₂ {reg : Registry} {env : Env} {it : Option Ty} :
    ∀ {l : List Expr} {vs : List Val},
    List.Forall₂ (fun i v => ∃ w, Expr.eval reg i env = .ok w ∧ w.typeOf = i.type ∧
      w.tagOK = true ∧ v = w.coerce it) l vs →
    Val.tagOKList vs = true := by
  intro l vs h
  induction h with
  | nil => rfl
  | cons hrel hrest ihl =>
    obtain ⟨w, _, _, hwtag, hveq⟩ := hrel
    simp only [Val.tagOKList, Bool.and_eq_true]
    exact ⟨hveq ▸ Val.coerce_tagOK hwtag, ihl⟩

/-- Type preservation of evaluation: a constructor-produced node, evaluated
under a registry honouring the `_Function` contract, in a type-compatible
environment, with decodable string literals, yields a well-tagged value of
exactly the node's static `type` field, or fails with a name-lookup failure
(`UnknownIdentifier`) — never a type error. -/
theorem evalPreservesType (reg : Registry) (hreg : RegistryOK reg) :
    ∀ e : Expr, Expr.WF reg e = true → ∀ env : Env,
      Expr.envOK env e = true → Expr.stringsOK e = true →
      (∃ v, e.eval reg env = .ok v ∧ v.typeOf = e.type ∧ v.tagOK = true) ∨
      (∃ p s, e.eval reg env = .error (.unknownIdentifier p s)) := by
  intro e
  induction e using Expr.inductionOn with
  | hboolean p t l =>
    intro hwf env _ _
    simp only [Expr.WF, beq_iff_eq] at hwf
    subst hwf
    exact Or.inl ⟨.boolean l, rfl, rfl, rfl⟩
  | hint p t l =>
    intro hwf env _ _
    simp only [Expr.WF, beq_iff_eq] at hwf
    subst hwf
    exact Or.inl ⟨.int l, rfl, rfl, rfl⟩
  | hfloat p t l =>
    intro hwf env _ _
    simp only [Expr.WF, beq_iff_eq] at hwf
    subst hwf
    exact Or.inl ⟨.float l, rfl, rfl, rfl⟩
  | hstring p t l =>
    intro hwf env _ hstr
    simp only [Expr.WF, beq_iff_eq] at hwf
    subst hwf
    simp only [Expr.stringsOK] at hstr
    cases hdec : stringEvalDecode l with
    | none => rw [hdec] at hstr; cases hstr
    | some s =>
      left
      exact ⟨.string s, by simp [Expr.eval, hdec], rfl, rfl⟩
  | harray p t it items ih =>
    intro hwf env henv hstr
    simp only [Expr.WF, Bool.and_eq_true] at hwf
    obtain ⟨hwfl, hshape⟩ := hwf
    simp only [Expr.envOK] at henv
    simp only [Expr.stringsOK] at hstr
    have hitem : ∀ i ∈ items,
        (∃ v, i.eval reg env = .ok v ∧ v.typeOf = i.type ∧ v.tagOK = true) ∨
        (∃ pp ss, i.eval reg env = .error (.unknownIdentifier pp ss)) := fun i hi =>
      ih i hi (Expr.WFList_mem hi hwfl) env (Expr.envOKList_mem hi henv)
        (Expr.stringsOKList_mem hi hstr)
    rcases evalItemsSpec reg it env items hitem with ⟨vs, hvs, hfa⟩ | ⟨pp, ss, herr⟩
    · left
      have htag : Val.tagOKList vs = true := tagOKList_of_forall₂ hfa
      have hty : Ty.isInstanceAnyArray t = true := by
        cases items with
        | nil =>
          simp only [Bool.and_eq_true, beq_iff_eq] at hshape
          rw [hshape.1]; rfl
        | cons first rest =>
          simp only [Bool.and_eq_true, beq_iff_eq] at hshape
          rw [hshape.1.2]; rfl
      refine ⟨.array t vs, by simp [Expr.eval, hvs], rfl, ?_⟩
      simp only [Val.tagOK, Bool.and_eq_true]
      exact ⟨hty, htag⟩
    · right
      exact ⟨pp, ss, by simp [Expr.eval, herr]⟩
  | hifThenElse p t c a b ihc iha ihb =>
    intro hwf env henv hstr
    simp only [Expr.WF, Bool.and_eq_true, beq_iff_eq] at hwf
    obtain ⟨⟨⟨⟨⟨hwc, hwa⟩, hwb⟩, hct⟩, hab⟩, hta⟩ := hwf
    simp only [Expr.envOK, Bool.and_eq_true] at henv
    obtain ⟨⟨hec, hea⟩, heb⟩ := henv
    simp only [Expr.stringsOK, Bool.and_eq_true] at hstr
    obtain ⟨⟨hsc, hsa⟩, hsb⟩ := hstr
    rcases ihc hwc env hec hsc with ⟨cv, hcv, hcvt, _⟩ | ⟨pp, ss, herr⟩
    · rw [hct] at hcvt
      have hexp : cv.expect .boolean = .ok cv := by simp [Val.expect, hcvt]
      cases hb : cv.boolValue
      · rcases ihb hwb env heb hsb with ⟨v, hv, hvt, hvtag⟩ | ⟨pp, ss, herr⟩
        · left
          refine ⟨v, ?_, ?_, hvtag⟩
          · simp [Expr.eval, hcv, hexp, hb, hv]
          · rw [hvt]; show Expr.type b = t; rw [hta, hab]
        · right
          exact ⟨pp, ss, by simp [Expr.eval, hcv, hexp, hb, herr]⟩
      · rcases iha hwa env hea hsa with ⟨v, hv, hvt, hvtag⟩ | ⟨pp, ss, herr⟩
        · left
          refine ⟨v, ?_, ?_, hvtag⟩
          · simp [Expr.eval, hcv, hexp, hb, hv]
          · rw [hvt]; show Expr.type a = t; rw [hta]
        · right
          exact ⟨pp, ss, by simp [Expr.eval, hcv, hexp, hb, herr]⟩
    · right
      exact ⟨pp, ss, by simp [Expr.eval, herr]⟩
  | happly p t f args ih =>
    intro hwf env henv hstr
    simp only [Expr.WF, Bool.and_eq_true] at hwf
    obtain ⟨hwargs, hrest⟩ := hwf
    cases hlook : List.lookup f reg with
    | none => simp only [hlook] at hrest; exact Bool.noConfusion hrest
    | some fimpl =>
      simp only [hlook] at hrest
      cases htc : fimpl.typecheck p args with
      | error err => simp only [htc] at hrest; exact Bool.noConfusion hrest
      | ok rt =>
        simp only [htc, beq_iff_eq] at hrest
        subst hrest
        rcases hreg f fimpl hlook p args t env htc with ⟨v, hv, hvt, hvtag⟩ | ⟨pp, ss, herr⟩
        · left
          exact ⟨v, by simp [Expr.eval, hlook, hv], hvt, hvtag⟩
        · right
          exact ⟨pp, ss, by simp [Expr.eval, hlook, herr]⟩
  | hident p t ns s =>
    intro hwf env henv _
    simp only [Expr.envOK] at henv
    cases hlook : List.lookup s env with
    | none =>
      right
      exact ⟨p, s, by simp [Expr.eval, hlook]⟩
    | some v =>
      rw [hlook] at henv
      simp only [Bool.and_eq_true, beq_iff_eq] at henv
      left
      exact ⟨v, by simp [Expr.eval, hlook], henv.1, henv.2⟩

/-- Any error raised by `typecheck` comes from the shared default
(`Base.typecheck`): the two overrides only ever add success cases. -/
theorem Expr.typecheck_error_base {e : Expr} {expected : Option Ty} {err : Err}
    (h : e.typecheck expected = .error err) :
    baseTypecheck e expected = .error err := by
  cases expected with
  | none =>
    exfalso
    cases e <;> simp [Expr.typecheck, baseTypecheck] at h
  | some exp =>
    cases e <;> simp only [Expr.typecheck] at h <;> try exact h
    case int p t l =>
      cases exp <;> (try simp only at h) <;>
        first | exact h | exact Except.noConfusion h
    case array p t it items =>
      (try simp only at h)
      split at h
      · exact Except.noConfusion h
      · exact h

/-- The shape of a `Base.typecheck` failure: a `StaticTypeMismatch` at the
node's own position, with the expected and actual types and no note. -/
theorem baseTypecheck_error {e : Expr} {expected : Option Ty} {err : Err}
    (h : baseTypecheck e expected = .error err) :
    ∃ exp, expected = some exp ∧ e.type ≠ exp ∧
      err = .staticTypeMismatch e.pos exp e.type none := by
  cases expected with
  | none => exact Except.noConfusion h
  | some exp =>
    simp only [baseTypecheck] at h
    split at h
    · rename_i hne
      refine ⟨exp, rfl, hne, ?_⟩
      injection h with h'
      exact h'.symm
    · exact Except.noConfusion h

/-- The shape of any `typecheck` failure. -/
theorem Expr.typecheck_error {e : Expr} {expected : Option Ty} {err : Err}
    (h : e.typecheck expected = .error err) :
    ∃ exp, expected = some exp ∧ e.type ≠ exp ∧
      err = .staticTypeMismatch e.pos exp e.type none :=
  baseTypecheck_error (Expr.typecheck_error_base h)

/-- When no item fails its check against the candidate item type, the
`Array.__init__` item loop succeeds. -/
theorem checkArrayItems_ok (pos : SourcePosition) (cand : Ty) :
    ∀ l : List Expr, l.find? (Expr.typecheckFails cand) = none →
      checkArrayItems pos cand l = .ok () := by
  intro l
  induction l with
  | nil => intro _; rfl
  | cons i rest ih =>
    intro h
    rw [List.find?_eq_none] at h
    have hi : ¬ Expr.typecheckFails cand i = true := h i (List.mem_cons_self i rest)
    simp only [Expr.typecheckFails] at hi
    cases htc : i.typecheck (some cand) with
    | error err => rw [htc] at hi; exact absurd rfl hi
    | ok e' =>
      simp only [checkArrayItems, htc]
      apply ih
      rw [List.find?_eq_none]
      intro x hx
      exact h x (List.mem_cons_of_mem _ hx)

/-- First-failure behaviour of the `Array.__init__` item loop: the first item
whose check against the candidate fails determines the re-signaled
diagnostic — the array's position, the candidate item type, that item's
actual type, and the fixed note; the item's own error is discarded. -/
theorem checkArrayItems_err (pos : SourcePosition) (cand : Ty) :
    ∀ (l : List Expr) (bad : Expr), l.find? (Expr.typecheckFails cand) = some bad →
      checkArrayItems pos cand l =
        .error (.staticTypeMismatch pos cand bad.type
          (some "inconsistent types within array")) := by
  intro l
  induction l with
  | nil => intro bad h; exact Option.noConfusion h
  | cons i rest ih =>
    intro bad h
    cases htc : i.typecheck (some cand) with
    | error err =>
      have hp : Expr.typecheckFails cand i = true := by
        simp only [Expr.typecheckFails, htc]
      rw [List.find?_cons_of_pos _ hp] at h
      injection h with h'
      subst h'
      obtain ⟨exp, _, _, herr⟩ := Expr.typecheck_error htc
      subst herr
      simp only [checkArrayItems, htc]
    | ok e' =>
      have hp : ¬ Expr.typecheckFails cand i = true := by
        simp only [Expr.typecheckFails, htc]
        exact Bool.false_ne_true
      rw [List.find?_cons_of_neg _ hp] at h
      simp only [checkArrayItems, htc]
      exact ih bad h

/-- Any element whose static type is `Float` passes `typecheck(Float)`
(by the default equality check, whatever its variant). -/
theorem typecheck_float_ok {e : Expr} (h : e.type = .float) :
    e.typecheck (some .float) = .ok e := by
  have hbase : baseTypecheck e (some .float) = .ok e := by
    simp [baseTypecheck, h]
  cases e with
  | int p t l => rfl
  | array p t it items =>
    simp only [Expr.typecheck]
    split
    · rfl
    · exact hbase
  | _ => exact hbase

/-- An `Int` literal passes `typecheck(Float)` (the override). -/
theorem typecheck_intlit_float_ok {e : Expr} (h : e.isIntLiteral = true) :
    e.typecheck (some .float) = .ok e := by
  cases e <;> simp [Expr.isIntLiteral] at h
  rfl

/-- A well-formed `int`-constructor node records type `Int`. -/
theorem WF_int_type {reg : Registry} {p : SourcePosition} {t : Ty} {l : Int}
    (h : Expr.WF reg (.int p t l) = true) : t = .int := by
  simpa [Expr.WF] using h

/-- A well-formed `array`-constructor node records an array type (concrete
or "any array"), never a scalar type. -/
theorem WF_array_type {reg : Registry} {p : SourcePosition} {t : Ty}
    {it : Option Ty} {l : List Expr}
    (h : Expr.WF reg (.array p t it l) = true) : t.isInstanceAnyArray = true := by
  simp only [Expr.WF, Bool.and_eq_true] at h
  obtain ⟨_, hshape⟩ := h
  cases l with
  | nil =>
    simp only [Bool.and_eq_true, beq_iff_eq] at hshape
    rw [hshape.1]; rfl
  | cons first rest =>
    simp only [Bool.and_eq_true, beq_iff_eq] at hshape
    rw [hshape.1.2]; rfl

/-- A well-formed node of static type `Int` that is not an `Int` literal
fails `typecheck(Float)`: only the `Int`-literal variant overrides the
default check to accept an expected `Float`. -/
theorem WF_int_not_literal_fails_float {reg : Registry} {e : Expr}
    (hwf : Expr.WF reg e = true) (ht : e.type = .int) (hnl : e.isIntLiteral = false) :
    Expr.typecheckFails .float e = true := by
  cases e with
  | int p t l => simp [Expr.isIntLiteral] at hnl
  | array p t it items =>
    have harr := WF_array_type hwf
    rw [show Expr.type (.array p t it items) = t from rfl] at ht
    rw [ht] at harr
    exact Bool.noConfusion harr
  | _ =>
    simp only [Expr.typecheckFails, Expr.typecheck, baseTypecheck]
    rw [ht]
    simp

/-- A well-formed node of static type `Float` fails `typecheck(cand)` for any
candidate other than `Float` (no variant of static type `Float` has an
applicable override). -/
theorem WF_float_fails_ne {reg : Registry} {e : Expr} {cand : Ty}
    (hwf : Expr.WF reg e = true) (ht : e.type = .float) (hne : cand ≠ .float) :
    Expr.typecheckFails cand e = true := by
  cases e with
  | int p t l =>
    have := WF_int_type hwf
    rw [show Expr.type (.int p t l) = t from rfl] at ht
    rw [this] at ht
    exact Ty.noConfusion ht
  | array p t it items =>
    have harr := WF_array_type hwf
    rw [show Expr.type (.array p t it items) = t from rfl] at ht
    rw [ht] at harr
    exact Bool.noConfusion harr
  | _ =>
    simp only [Expr.typecheckFails, Expr.typecheck, baseTypecheck]
    rw [ht]
    simp [Ne.symm hne]

/-- Right-membership form of `List.Forall₂`. -/
theorem forall₂_mem_right {α β : Type} {R : α → β → Prop} :
    ∀ {l : List α} {vs : List β}, List.Forall₂ R l vs →
      ∀ v ∈ vs, ∃ i ∈ l, R i v := by
  intro l vs h
  induction h with
  | nil => intro v hv; exact absurd hv (List.not_mem_nil v)
  | cons hrel hrest ihl =>
    intro v hv
    cases hv with
    | head => exact ⟨_, List.mem_cons_self _ _, hrel⟩
    | tail _ hmem =>
      obtain ⟨i, hi, hr⟩ := ihl v hmem
      exact ⟨i, List.mem_cons_of_mem _ hi, hr⟩

/-- A well-tagged value of runtime type `Float` is a float value. -/
theorem Val.eq_float {v : Val} (h : v.typeOf = .float) (ht : v.tagOK = true) :
    ∃ x, v = .float x := by
  cases v with
  | float x => exact ⟨x, rfl⟩
  | array ty vals =>
    simp only [Val.typeOf] at h
    simp only [Val.tagOK, Bool.and_eq_true] at ht
    rw [h] at ht
    exact Bool.noConfusion ht.1
  | _ => exact Ty.noConfusion h

/-- A well-tagged value of runtime type `Int` is an int value. -/
theorem Val.eq_int {v : Val} (h : v.typeOf = .int) (ht : v.tagOK = true) :
    ∃ n, v = .int n := by
  cases v with
  | int n => exact ⟨n, rfl⟩
  | array ty vals =>
    simp only [Val.typeOf] at h
    simp only [Val.tagOK, Bool.and_eq_true] at ht
    rw [h] at ht
    exact Bool.noConfusion ht.1
  | _ => exact Ty.noConfusion h

/-- Rebuilding a string from its own character list. -/
theorem asString_data (s : String) : s.data.asString = s := by
  cases s
  rfl

/-- UTF-8 encodes an ASCII character as its single code-point byte. -/
theorem utf8EncodeChar_ascii {c : Char} (h : c.toNat < 128) :
    utf8EncodeChar c = [c.toNat] := by
  simp [utf8EncodeChar, h]

/-- UTF-8 encoding of all-ASCII text is the byte-per-character map. -/
theorem utf8Encode_ascii : ∀ l : List Char, (∀ c ∈ l, c.toNat < 128) →
    (l.map utf8EncodeChar).flatten = l.map Char.toNat := by
  intro l
  induction l with
  | nil => intro _; rfl
  | cons c rest ih =>
    intro h
    simp only [List.map_cons, List.flatten_cons]
    rw [utf8EncodeChar_ascii (h c (List.mem_cons_self c rest))]
    rw [ih (fun d hd => h d (List.mem_cons_of_mem _ hd))]
    rfl

/-- The `unicode_escape` decoder maps backslash-free ASCII bytes back to the
same characters (Latin-1 agrees with ASCII below 128). -/
theorem unicodeEscapeAux_ascii : ∀ l : List Char,
    (∀ c ∈ l, c.toNat < 128 ∧ c ≠ '\\') →
    unicodeEscapeAux (l.map Char.toNat).length (l.map Char.toNat) = some l := by
  intro l
  induction l with
  | nil => intro _; rfl
  | cons c rest ih =>
    intro h
    obtain ⟨hc, hbs⟩ := h c (List.mem_cons_self c rest)
    have hne : ¬ (c.toNat = 92) := by
      intro he
      exact hbs (by rw [← Char.ofNat_toNat c, he])
    simp only [List.map_cons, List.length_cons]
    rw [unicodeEscapeAux.eq_def]
    simp only [if_neg hne]
    rw [ih (fun d hd => h d (List.mem_cons_of_mem _ hd))]
    simp [latin1Char, Char.ofNat_toNat]

/-- `String.eval`'s decode pipeline is the identity on a literal whose inner
text (quotes stripped) is ASCII with no backslash. -/
theorem stringEvalDecode_ascii {lit : String}
    (h : ∀ c ∈ ((lit.drop 1).dropRight 1).data, c.toNat < 128 ∧ c ≠ '\\') :
    stringEvalDecode lit = some ((lit.drop 1).dropRight 1) := by
  unfold stringEvalDecode unicodeEscapeDecode utf8Encode
  rw [utf8Encode_ascii _ (fun c hc => (h c hc).1)]
  rw [unicodeEscapeAux_ascii _ h]
  simp [asString_data]

/-! ### The claims -/

/-- C8: for every expression node — in particular every successfully
constructed node of every variant (Boolean, Int, Float, String, Array
including the empty array, IfThenElse, Apply, Ident) — calling `typecheck`
with the node's own static `type` succeeds and returns the same node
unchanged. -/
theorem C8_typecheck_self_roundtrip (e : Expr) : e.typecheck (some e.type) = .ok e := by
  have hbase : baseTypecheck e (some e.type) = .ok e := by
    simp [baseTypecheck]
  cases e with
  | int p t l => cases t <;> first | rfl | exact hbase
  | array p t it items =>
    simp only [Expr.typecheck]
    split
    · rfl
    · exact hbase
  | boolean p t l => exact hbase
  | float p t l => exact hbase
  | string p t l => exact hbase
  | ifThenElse p t c a b => exact hbase
  | apply p t f args => exact hbase
  | ident p t ns s => exact hbase

/-- C3: an `Array` constructed from an empty sequence has the special
"any array" static type; calling `typecheck` on it with any expected
concrete array type succeeds and returns the same node unchanged,
short-circuiting before the default equality comparison — which, as the
last conjunct shows, would have rejected it. -/
theorem C3_empty_array_any (pos : SourcePosition) (t : Ty) :
    ∃ node, Array.make pos [] = .ok node ∧
      node.type = .anyArray ∧
      node.typecheck (some (.array t)) = .ok node ∧
      baseTypecheck node (some (.array t)) =
        .error (.staticTypeMismatch pos (.array t) .anyArray none) := by
  refine ⟨.array pos .anyArray none [], rfl, rfl, rfl, ?_⟩
  simp [baseTypecheck, Expr.type, Expr.pos]

/-- C5: `IfThenElse` construction signals `StaticTypeMismatch` noting
"in if condition" whenever the condition's static type is not exactly
Boolean; signals a `StaticTypeMismatch` whenever the consequent's and
alternative's static types are not exactly equal (with the branch note when
the condition is Boolean); and otherwise succeeds with the node's static
type equal to the consequent's type. -/
theorem C5_ifthenelse_static_rules (pos : SourcePosition) (c a b : Expr) :
    (c.type ≠ .boolean →
      IfThenElse.make pos c a b =
        .error (.staticTypeMismatch pos .boolean c.type (some "in if condition"))) ∧
    (a.type ≠ b.type → ∃ exp act msg,
      IfThenElse.make pos c a b = .error (.staticTypeMismatch pos exp act msg)) ∧
    (c.type = .boolean → a.type ≠ b.type →
      IfThenElse.make pos c a b =
        .error (.staticTypeMismatch pos a.type b.type
          (some "if consequent & alternative must have the same type"))) ∧
    (c.type = .boolean → a.type = b.type →
      IfThenElse.make pos c a b = .ok (.ifThenElse pos a.type c a b)) := by
  refine ⟨?_, ?_, ?_, ?_⟩
  · intro h1
    simp [IfThenElse.make, h1]
  · intro h2
    by_cases h1 : c.type = .boolean
    · refine ⟨a.type, b.type, some "if consequent & alternative must have the same type", ?_⟩
      simp [IfThenElse.make, h1, h2]
    · refine ⟨.boolean, c.type, some "in if condition", ?_⟩
      simp [IfThenElse.make, h1]
  · intro h1 h2
    simp [IfThenElse.make, h1, h2]
  · intro h1 h2
    simp [IfThenElse.make, h1, h2]

/-- C5 witness: a non-Boolean condition, mismatched branches, and the
successful case, at concrete nodes. -/
theorem C5_ifthenelse_static_rules_witness :
    IfThenElse.make pos0 (Int.make pos0 0) (Int.make pos0 1) (Int.make pos0 2) =
      .error (.staticTypeMismatch pos0 .boolean .int (some "in if condition")) ∧
    IfThenElse.make pos0 (Boolean.make pos0 true) (Int.make pos0 1) (Boolean.make pos0 false) =
      .error (.staticTypeMismatch pos0 .int .boolean
        (some "if consequent & alternative must have the same type")) ∧
    IfThenElse.make pos0 (Boolean.make pos0 true) (Int.make pos0 1) (Int.make pos0 2) =
      .ok (.ifThenElse pos0 .int (Boolean.make pos0 true) (Int.make pos0 1) (Int.make pos0 2)) :=
  ⟨(C5_ifthenelse_static_rules pos0 (Int.make pos0 0) (Int.make pos0 1) (Int.make pos0 2)).1
      (by decide),
   (C5_ifthenelse_static_rules pos0 (Boolean.make pos0 true) (Int.make pos0 1)
      (Boolean.make pos0 false)).2.2.1 rfl (by decide),
   (C5_ifthenelse_static_rules pos0 (Boolean.make pos0 true) (Int.make pos0 1)
      (Int.make pos0 2)).2.2.2 rfl rfl⟩

/-- C6: evaluation of `IfThenElse` short-circuits: if the condition
evaluates to the Boolean value false, the node evaluates to exactly the
alternative's eval result, whatever the consequent is (in particular even
when evaluating the consequent would fail); symmetrically, if true, to the
consequent's result, whatever the alternative is. -/
theorem C6_ifthenelse_short_circuit (reg : Registry) (env : Env)
    (pos : SourcePosition) (ty : Ty) (c a b : Expr) :
    (c.eval reg env = .ok (.boolean false) →
      (Expr.ifThenElse pos ty c a b).eval reg env = b.eval reg env) ∧
    (c.eval reg env = .ok (.boolean true) →
      (Expr.ifThenElse pos ty c a b).eval reg env = a.eval reg env) := by
  constructor <;> intro h <;>
    simp [Expr.eval, h, Val.expect, Val.typeOf, Val.boolValue]

/-- C6 witness: with a false condition, the consequent — here an identifier
whose evaluation would fail — is never evaluated, and the alternative's
value is returned. -/
theorem C6_ifthenelse_short_circuit_witness :
    (Expr.ifThenElse pos0 .int (Boolean.make pos0 false) (Expr.ident pos0 .int [] "u")
        (Int.make pos0 42)).eval [] [] = (Int.make pos0 42).eval [] [] ∧
    (Expr.ident pos0 .int [] "u").eval [] [] = .error (.unknownIdentifier pos0 "u") ∧
    (Int.make pos0 42).eval [] [] = .ok (.int 42) :=
  ⟨(C6_ifthenelse_short_circuit [] [] pos0 .int (Boolean.make pos0 false)
      (Expr.ident pos0 .int [] "u") (Int.make pos0 42)).1 rfl, rfl, rfl⟩

/-- C9: for a single-part identifier, construction signals
`UnknownIdentifier` exactly when the identifier is absent from the supplied
static environment, and otherwise the node's static type is what the static
environment reports; evaluation signals `UnknownIdentifier` exactly when the
same identifier is absent from the runtime environment (returning the bound
value otherwise), independently of the construction-time lookup. -/
theorem C9_ident_lookup (pos : SourcePosition) (id : String) (senv : StaticEnv) :
    (List.lookup id senv = none →
      Ident.make pos [id] senv = .error (.unknownIdentifier pos id)) ∧
    (∀ ty, List.lookup id senv = some ty →
      Ident.make pos [id] senv = .ok (.ident pos ty [] id)) ∧
    (∀ (reg : Registry) (env : Env) (ty : Ty) (ns : List String),
      List.lookup id env = none →
      (Expr.ident pos ty ns id).eval reg env = .error (.unknownIdentifier pos id)) ∧
    (∀ (reg : Registry) (env : Env) (ty : Ty) (ns : List String) (v : Val),
      List.lookup id env = some v →
      (Expr.ident pos ty ns id).eval reg env = .ok v) := by
  have hg : ([id] : List String).getLast! = id := rfl
  have hd : ([id] : List String).dropLast = [] := rfl
  refine ⟨?_, ?_, ?_, ?_⟩
  · intro h
    simp [Ident.make, hg, hd, h]
  · intro ty h
    simp [Ident.make, hg, hd, h]
  · intro reg env ty ns h
    simp [Expr.eval, h]
  · intro reg env ty ns v h
    simp [Expr.eval, h]

/-- C9 witness: a miss and a hit in the static environment, and a miss in
the runtime environment, at concrete inputs. -/
theorem C9_ident_lookup_witness :
    Ident.make pos0 ["y"] [("x", Ty.int)] = .error (.unknownIdentifier pos0 "y") ∧
    Ident.make pos0 ["x"] [("x", Ty.int)] = .ok (.ident pos0 .int [] "x") ∧
    (Expr.ident pos0 .int [] "x").eval [] [] = .error (.unknownIdentifier pos0 "x") :=
  ⟨(C9_ident_lookup pos0 "y" [("x", Ty.int)]).1 rfl,
   (C9_ident_lookup pos0 "x" [("x", Ty.int)]).2.1 .int rfl,
   (C9_ident_lookup pos0 "x" [("x", Ty.int)]).2.2.1 [] [] .int [] rfl⟩

/-- C4: when some element of an Array construction fails its typecheck
against the unified candidate item type, construction signals a
`StaticTypeMismatch` carrying the array node's position, the candidate item
type, the first offending element's actual static type, and the fixed note
"inconsistent types within array"; the element's own error (always a plain
note-free `StaticTypeMismatch`, cf. `Expr.typecheck_error`) is discarded,
not chained. The remaining conjuncts show the Array node is the only
constructor that re-signals a child's error as a different diagnostic:
`IfThenElse` and `Ident` failures are their own fixed diagnostics, and
`Apply` either signals its own `NoSuchFunction` or propagates the
implementation's error unmodified. -/
theorem C4_array_resignal (pos : SourcePosition) :
    (∀ (first : Expr) (rest : List Expr) (bad : Expr),
      (first :: rest).find? (Expr.typecheckFails (arrayItemType first (first :: rest))) =
          some bad →
      Array.make pos (first :: rest) =
        .error (.staticTypeMismatch pos (arrayItemType first (first :: rest)) bad.type
          (some "inconsistent types within array"))) ∧
    (∀ (c a b : Expr) (err : Err), IfThenElse.make pos c a b = .error err →
      err = .staticTypeMismatch pos .boolean c.type (some "in if condition") ∨
      err = .staticTypeMismatch pos a.type b.type
        (some "if consequent & alternative must have the same type")) ∧
    (∀ (reg : Registry) (f : String) (args : List Expr) (err : Err),
      Apply.make reg pos f args = .error err →
      err = .noSuchFunction pos f ∨
      ∃ fimpl, List.lookup f reg = some fimpl ∧ fimpl.typecheck pos args = .error err) ∧
    (∀ (parts : List String) (senv : StaticEnv) (err : Err),
      Ident.make pos parts senv = .error err →
      err = .unknownIdentifier pos parts.getLast!) := by
  refine ⟨?_, ?_, ?_, ?_⟩
  · intro first rest bad h
    have hk := checkArrayItems_err pos (arrayItemType first (first :: rest))
      (first :: rest) bad h
    simp [Array.make, hk]
  · intro c a b err h
    unfold IfThenElse.make at h
    split at h
    · left
      injection h with h'
      exact h'.symm
    · split at h
      · right
        injection h with h'
        exact h'.symm
      · exact Except.noConfusion h
  · intro reg f args err h
    unfold Apply.make at h
    cases hlook : List.lookup f reg with
    | none =>
      simp only [hlook] at h
      left
      injection h with h'
      exact h'.symm
    | some fimpl =>
      simp only [hlook] at h
      cases htc : fimpl.typecheck pos args with
      | error e' =>
        simp only [htc] at h
        injection h with h'
        subst h'
        exact Or.inr ⟨fimpl, rfl, htc⟩
      | ok rt =>
        simp only [htc] at h
        exact Except.noConfusion h
  · intro parts senv err h
    unfold Ident.make at h
    cases hlook : List.lookup parts.getLast! senv with
    | none =>
      simp only [hlook] at h
      injection h with h'
      exact h'.symm
    | some ty =>
      simp only [hlook] at h
      exact Except.noConfusion h

/-- C4 witness: mixing an Int literal with a String literal re-signals the
fixed array diagnostic carrying the candidate type Int and the offender's
type String. -/
theorem C4_array_resignal_witness :
    Array.make pos0 [Int.make pos0 1, String.make pos0 "\"a\""] =
      .error (.staticTypeMismatch pos0 .int .string
        (some "inconsistent types within array")) :=
  (C4_array_resignal pos0).1 (Int.make pos0 1) [String.make pos0 "\"a\""]
    (String.make pos0 "\"a\"") rfl

/-- C10: Int-to-Float widening inside an Array succeeds only when every
Int-typed element is an Int literal: any Array construction over
constructor-produced elements that include at least one Float-typed element
and at least one Int-typed element that is not an Int literal signals
`StaticTypeMismatch` with the note "inconsistent types within array",
because only the Int-literal variant overrides `typecheck` to accept an
expected Float. -/
theorem C10_widening_requires_int_literal (reg : Registry) (pos : SourcePosition)
    (items : List Expr) (hwf : Expr.WFList reg items = true)
    (hfl : ∃ i ∈ items, i.type = .float)
    (hintn : ∃ j ∈ items, j.type = .int ∧ j.isIntLiteral = false) :
    ∃ exp act, Array.make pos items =
      .error (.staticTypeMismatch pos exp act
        (some "inconsistent types within array")) := by
  obtain ⟨i, hi, hit⟩ := hfl
  obtain ⟨j, hj, hjt, hjl⟩ := hintn
  cases items with
  | nil => exact absurd hi (List.not_mem_nil i)
  | cons first rest =>
    have hfail : ∃ x ∈ first :: rest,
        Expr.typecheckFails (arrayItemType first (first :: rest)) x = true := by
      by_cases hc : arrayItemType first (first :: rest) = .float
      · refine ⟨j, hj, ?_⟩
        rw [hc]
        exact WF_int_not_literal_fails_float (Expr.WFList_mem hj hwf) hjt hjl
      · exact ⟨i, hi, WF_float_fails_ne (Expr.WFList_mem hi hwf) hit hc⟩
    have hsome : ((first :: rest).find?
        (Expr.typecheckFails (arrayItemType first (first :: rest)))).isSome := by
      rw [List.find?_isSome]
      exact hfail
    obtain ⟨bad, hbad⟩ := Option.isSome_iff_exists.mp hsome
    have hk := checkArrayItems_err pos (arrayItemType first (first :: rest))
      (first :: rest) bad hbad
    exact ⟨arrayItemType first (first :: rest), bad.type, by simp [Array.make, hk]⟩

/-- C10 witness: a Float literal next to an Int-typed identifier. -/
theorem C10_widening_requires_int_literal_witness :
    ∃ exp act, Array.make pos0 [Float.make pos0 1, Expr.ident pos0 .int [] "n"] =
      .error (.staticTypeMismatch pos0 exp act
        (some "inconsistent types within array")) :=
  C10_widening_requires_int_literal [] pos0
    [Float.make pos0 1, Expr.ident pos0 .int [] "n"] rfl
    ⟨Float.make pos0 1, List.mem_cons_self _ _, rfl⟩
    ⟨Expr.ident pos0 .int [] "n", List.mem_cons_of_mem _ (List.mem_cons_self _ _), rfl, rfl⟩

/-- C7 counterexample: the claim's round-trip clause fails on non-ASCII
inner text even with no escape sequences: `String.eval` UTF-8-encodes the
inner text and then decodes the bytes with `unicode_escape`, which treats
each non-escape byte as Latin-1, so the escape-free inner text "é" (two
UTF-8 bytes) evaluates to the two-character string "Ã©", not to "é". -/
theorem C7_counterexample :
    (("\"é\"".drop 1).dropRight 1 = "é") ∧
    (∀ c ∈ ("é" : String).data, c ≠ '\\') ∧
    (Expr.string pos0 .string "\"é\"").eval [] [] = .ok (.string "Ã©") ∧
    ("Ã©" : String) ≠ ("é" : String) :=
  ⟨rfl, by decide, rfl, by decide⟩

/-- C7 (amended): `String.eval` strips exactly the first and last character
of the stored literal and decodes the resulting text's UTF-8 bytes through
the `unicode_escape` decoder (escape sequences become their literal
characters); for every stored literal whose inner text is pure ASCII and
contains no backslash, the result equals that inner text unchanged (for
non-ASCII inner text the byte-level decode mangles it, cf. the
counterexample). -/
theorem C7_string_eval (reg : Registry) (env : Env) (pos : SourcePosition)
    (ty : Ty) (lit : String) :
    ((Expr.string pos ty lit).eval reg env =
      match stringEvalDecode lit with
      | some s => .ok (.string s)
      | none => .error .unicodeDecodeError) ∧
    ((∀ c ∈ ((lit.drop 1).dropRight 1).data, c.toNat < 128 ∧ c ≠ '\\') →
      (Expr.string pos ty lit).eval reg env =
        .ok (.string ((lit.drop 1).dropRight 1))) := by
  constructor
  · rfl
  · intro h
    have hd := stringEvalDecode_ascii h
    simp [Expr.eval, hd]

/-- C7 witness: the spec's escape example decodes (first conjunct,
quotes stripped and the two-character sequence backslash-n decoded to a
newline), and an escape-free ASCII literal round-trips unchanged. -/
theorem C7_string_eval_witness :
    (Expr.string pos0 .string "\"a\\nb\"").eval [] [] = .ok (.string "a\nb") ∧
    (Expr.string pos0 .string "\"ab\"").eval [] [] = .ok (.string "ab") := by
  constructor
  · rw [(C7_string_eval [] [] pos0 .string "\"a\\nb\"").1]
    rfl
  · exact (C7_string_eval [] [] pos0 .string "\"ab\"").2 (by decide)

/-- C2 counterexample: for the element sequence [x, 1.5] where x is an
identifier of static type Int (first element Int-typed, one Float element),
the candidate item type is promoted to Float but construction signals
`StaticTypeMismatch` rather than producing a node of type Array(Float): the
Int-typed identifier has no typecheck override against Float. -/
theorem C2_counterexample :
    Ident.make pos0 ["x"] [("x", Ty.int)] = .ok (.ident pos0 .int [] "x") ∧
    (Expr.ident pos0 .int [] "x").type = .int ∧
    (∃ i ∈ [Expr.ident pos0 .int [] "x", Float.make pos0 (3 / 2)], i.type = .float) ∧
    Array.make pos0 [Expr.ident pos0 .int [] "x", Float.make pos0 (3 / 2)] =
      .error (.staticTypeMismatch pos0 .float .int
        (some "inconsistent types within array")) :=
  ⟨rfl, rfl, ⟨Float.make pos0 (3 / 2), List.mem_cons_of_mem _ (List.mem_cons_self _ _), rfl⟩,
    rfl⟩

/-- C2 (amended): for every non-empty sequence whose first element has
static type Int and which contains at least one Float-typed element,
provided every element either is Float-typed or is an Int literal (the
condition for the per-element checks to pass, cf. C10), construction
promotes the unified item type to Float and the node's static type is
Array(Float); and, under the `_Function` contract and in a type-compatible
environment with decodable string literals, evaluation yields an array
value every element of which is Float-typed (pure-Int literals' values
being coerced to Float), unless a name lookup fails. -/
theorem C2_array_widening (reg : Registry) (pos : SourcePosition)
    (first : Expr) (rest : List Expr)
    (hfirst : first.type = .int)
    (hfl : ∃ i ∈ first :: rest, i.type = .float)
    (hall : ∀ i ∈ first :: rest, i.type = .float ∨ i.isIntLiteral = true)
    (hreg : RegistryOK reg)
    (hwf : Expr.WFList reg (first :: rest) = true) :
    Array.make pos (first :: rest) =
      .ok (.array pos (.array .float) (some .float) (first :: rest)) ∧
    ∀ env : Env, Expr.envOKList env (first :: rest) = true →
      Expr.stringsOKList (first :: rest) = true →
      ((∃ vs, (Expr.array pos (.array .float) (some .float) (first :: rest)).eval reg env =
          .ok (.array (.array .float) vs) ∧ ∀ v ∈ vs, v.typeOf = .float) ∨
        (∃ p s, (Expr.array pos (.array .float) (some .float) (first :: rest)).eval reg env =
          .error (.unknownIdentifier p s))) := by
  have hcand : arrayItemType first (first :: rest) = .float := by
    obtain ⟨i, hi, hit⟩ := hfl
    unfold arrayItemType
    rw [if_pos]
    exact ⟨hfirst, by rw [List.any_eq_true]; exact ⟨i, hi, by simp [hit]⟩⟩
  have hpass : ∀ x ∈ first :: rest, x.typecheck (some .float) = .ok x := by
    intro x hx
    rcases hall x hx with hxf | hxl
    · exact typecheck_float_ok hxf
    · exact typecheck_intlit_float_ok hxl
  constructor
  · have hnone : (first :: rest).find? (Expr.typecheckFails .float) = none := by
      rw [List.find?_eq_none]
      intro x hx
      simp [Expr.typecheckFails, hpass x hx]
    have hk := checkArrayItems_ok pos .float (first :: rest) hnone
    simp [Array.make, hcand, hk]
  · intro env henv hstr
    have hitem : ∀ i ∈ first :: rest,
        (∃ v, i.eval reg env = .ok v ∧ v.typeOf = i.type ∧ v.tagOK = true) ∨
        (∃ p s, i.eval reg env = .error (.unknownIdentifier p s)) := fun i hi =>
      evalPreservesType reg hreg i (Expr.WFList_mem hi hwf) env
        (Expr.envOKList_mem hi henv) (Expr.stringsOKList_mem hi hstr)
    rcases evalItemsSpec reg (some .float) env (first :: rest) hitem with
      ⟨vs, hvs, hfa⟩ | ⟨p, s, herr⟩
    · left
      refine ⟨vs, by simp [Expr.eval, hvs], ?_⟩
      intro v hv
      obtain ⟨i, hi, w, hw, hwt, hwtag, hveq⟩ := forall₂_mem_right hfa v hv
      rcases hall i hi with hif | hil
      · obtain ⟨x, hx⟩ := Val.eq_float (by rw [hwt, hif]) hwtag
        rw [hveq, hx]
        rfl
      · have hit : i.type = .int := by
          cases i <;> simp [Expr.isIntLiteral] at hil
          exact WF_int_type (Expr.WFList_mem hi hwf)
        obtain ⟨n, hn⟩ := Val.eq_int (by rw [hwt, hit]) hwtag
        rw [hveq, hn]
        rfl
    · right
      exact ⟨p, s, by simp [Expr.eval, herr]⟩

/-- C2 witness: the array literal [1, 1.5] constructs at type Array(Float)
and evaluates with its Int literal's value coerced to a Float value. -/
theorem C2_array_widening_witness :
    Array.make pos0 [Int.make pos0 1, Float.make pos0 (3 / 2)] =
      .ok (.array pos0 (.array .float) (some .float)
        [Int.make pos0 1, Float.make pos0 (3 / 2)]) ∧
    ((∃ vs, (Expr.array pos0 (.array .float) (some .float)
        [Int.make pos0 1, Float.make pos0 (3 / 2)]).eval [] [] =
          .ok (.array (.array .float) vs) ∧ ∀ v ∈ vs, v.typeOf = .float) ∨
      (∃ p s, (Expr.array pos0 (.array .float) (some .float)
        [Int.make pos0 1, Float.make pos0 (3 / 2)]).eval [] [] =
          .error (.unknownIdentifier p s))) := by
  have h := C2_array_widening [] pos0 (Int.make pos0 1) [Float.make pos0 (3 / 2)]
    rfl
    ⟨Float.make pos0 (3 / 2), List.mem_cons_of_mem _ (List.mem_cons_self _ _), rfl⟩
    (by
      intro i hi
      rcases hi with _ | ⟨_, hi⟩
      · exact Or.inr rfl
      · rcases hi with _ | ⟨_, hi⟩
        · exact Or.inl rfl
        · exact absurd hi (List.not_mem_nil i))
    (fun _ _ h => nomatch h)
    rfl
  exact ⟨h.1, h.2 [] rfl rfl⟩

/-- C1 counterexample: the claim quantifies over every runtime environment,
but type preservation fails for an environment whose binding disagrees with
the static environment used at construction: an identifier constructed at
static type Int, evaluated where it is bound to a Boolean value, returns
that Boolean value — neither a value of the static type nor an
UnknownIdentifier failure. -/
theorem C1_counterexample :
    Ident.make pos0 ["x"] [("x", Ty.int)] = .ok (.ident pos0 .int [] "x") ∧
    (Expr.ident pos0 .int [] "x").eval [] [("x", Val.boolean true)] =
      .ok (.boolean true) ∧
    (Val.boolean true).typeOf ≠ (Expr.ident pos0 .int [] "x").type :=
  ⟨rfl, rfl, by decide⟩

/-- C1 (amended): for every successfully constructed node, evaluated under a
registry honouring the `_Function` contract, against a runtime environment
whose bindings for the node's identifiers carry well-tagged values of the
statically recorded types, and whose string literals decode, `eval` either
returns a value whose runtime type is exactly the node's static `type`
field or fails with a name-lookup failure (`UnknownIdentifier`) — never a
type error. (The `type` field is set once at construction; evaluation never
recomputes it, as the functional embedding makes structural.) -/
theorem C1_eval_type_sound (reg : Registry) (e : Expr) (env : Env)
    (hreg : RegistryOK reg) (hwf : Expr.WF reg e = true)
    (henv : Expr.envOK env e = true) (hstr : Expr.stringsOK e = true) :
    (∃ v, e.eval reg env = .ok v ∧ v.typeOf = e.type) ∨
    (∃ p s, e.eval reg env = .error (.unknownIdentifier p s)) := by
  rcases evalPreservesType reg hreg e hwf env henv hstr with ⟨v, h1, h2, _⟩ | h
  · exact Or.inl ⟨v, h1, h2⟩
  · exact Or.inr h

/-- C1 witness: the soundness statement instantiated at a concrete
constructed node, registry and environment. -/
theorem C1_eval_type_sound_witness :
    (∃ v, (Expr.ifThenElse pos0 .int (Boolean.make pos0 true) (Int.make pos0 1)
        (Int.make pos0 2)).eval [] [("x", Val.boolean true)] = .ok v ∧
      v.typeOf = (Expr.ifThenElse pos0 .int (Boolean.make pos0 true) (Int.make pos0 1)
        (Int.make pos0 2)).type) ∨
    (∃ p s, (Expr.ifThenElse pos0 .int (Boolean.make pos0 true) (Int.make pos0 1)
        (Int.make pos0 2)).eval [] [("x", Val.boolean true)] =
      .error (.unknownIdentifier p s)) :=
  C1_eval_type_sound [] (Expr.ifThenElse pos0 .int (Boolean.make pos0 true)
    (Int.make pos0 1) (Int.make pos0 2)) [("x", Val.boolean true)]
    (fun _ _ h => nomatch h) rfl rfl rfl

end WDL
